import Mathlib

/-!
Verification of the blockchain-ts ledger against its specification.

This file shallowly embeds the TypeScript sources of the repository:
`src/blockchain/Transaction.ts`, `src/blockchain/Block.ts`,
`src/blockchain/Blockchain.ts` (including the variant of that file that
carries `replaceChain`) and `src/networking/P2PServer.ts`.

Modelling conventions:
- JavaScript numbers holding amounts, timestamps and nonces are embedded as
  `Int`; array indices as `Nat`.  The one floating-point computation
  (`calculateStakeWeight`, which uses `1.1 ** days` and `Math.floor`) is
  embedded with exact rational arithmetic, `(11/10 : ℚ)`.
- SHA-256 (`Transaction.calculateHash`) is kept abstract: every definition
  that resolves transaction hashes takes a hash assignment
  `H : Transaction → String` as a parameter.  Universal theorems quantify
  over `H`; concrete counterexamples instantiate it with a simple
  discriminating function.
- `Date.now()` is passed in as an explicit `now : Int` parameter.
- JavaScript `Map` objects are embedded as association lists with the
  source's get/set/delete semantics.
- Methods that mutate `this` and may throw are embedded as functions
  returning `Option String × State`: the first component is `some msg`
  exactly when the source throws, and the second component is the state
  after the call (which the source leaves unchanged on its explicit
  validation throws, but NOT on the runtime TypeError that array
  misindexing raises after mutation has begun — the embedding models that
  path faithfully).
- File persistence (`saveBlockchain`) is embedded as a `saved` field of the
  state holding the last chain written to disk.
-/

namespace BlockchainTs

/-! ## Constants (src/index.ts and Blockchain class fields) -/

/-- Source `BLOCK_TIME = 10 * 60` (seconds), a readonly field of `Blockchain`. -/
def BLOCK_TIME : Int := 10 * 60

/-- Source `DIFFICULTY_ADJUSTMENT_INTERVAL = 10`. -/
def DIFFICULTY_ADJUSTMENT_INTERVAL : Nat := 10

/-- Source `DIFFICULTY_ADJUSTMENT_FACTOR = 4`. -/
def DIFFICULTY_ADJUSTMENT_FACTOR : Int := 4

/-- Source `POW_CUTOFF_BLOCK = 100` (src/index.ts). -/
def POW_CUTOFF_BLOCK : Nat := 100

/-- Source `MIN_STAKE_AMOUNT = 100`. -/
def MIN_STAKE_AMOUNT : Int := 100

/-- Source `MIN_STAKE_AGE = 60 * 60 * 24` (seconds). -/
def MIN_STAKE_AGE : Int := 60 * 60 * 24

/-! ## Transactions (src/blockchain/Transaction.ts) -/

/-- Source `TxInput { previousTx, outputIndex, signature }`. -/
structure TxInput where
  previousTx : String
  outputIndex : Nat
  signature : String
deriving Repr, DecidableEq, Inhabited

/-- Source `TxOutput { address, amount }`. -/
structure TxOutput where
  address : String
  amount : Int
deriving Repr, DecidableEq, Inhabited

/-- Source `Transaction { inputs, outputs, timestamp, nonce }`.  The `calculateHash`
method (SHA-256 of a JSON serialization) is kept abstract; see the module
comment. -/
structure Transaction where
  inputs : List TxInput
  outputs : List TxOutput
  timestamp : Int
  nonce : Int
deriving Repr, DecidableEq, Inhabited

/-- Source `Transaction.isCoinStake`: nonempty inputs, `inputs[0].previousTx` not
null (always true here: `previousTx` is embedded as a `String`), at least
two outputs, and `outputs[0].amount === 0`. -/
def Transaction.isCoinStake (tx : Transaction) : Bool :=
  decide (tx.inputs ≠ []) && decide (2 ≤ tx.outputs.length) &&
    (match tx.outputs.head? with
     | some o => decide (o.amount = 0)
     | none => false)

/-- Source `Transaction.isValid`: a transaction with no inputs and exactly one
output (coinbase shape) is valid by construction; otherwise every input
must carry a truthy (nonempty) signature string.  No cryptographic check
is performed. -/
def Transaction.isValid (tx : Transaction) : Bool :=
  if tx.inputs = [] ∧ tx.outputs.length = 1 then true
  else tx.inputs.all fun inp => decide (inp.signature ≠ "")

/-- Helper for `signTransaction`: overwrite the signature of input `i`
(no-op when `i` is out of range, which the loop never produces). -/
def setSignatureAt (tx : Transaction) (i : Nat) (s : String) : Transaction :=
  match tx.inputs.get? i with
  | some inp => { tx with inputs := tx.inputs.set i { inp with signature := s } }
  | none => tx

/-- The `forEach` body of `Transaction.signTransaction`, iterated: at each
input index the CURRENT hash of the (partially signed) transaction is
recomputed — `const hashTx = this.calculateHash()` sits inside the loop and
the inputs it has already signed feed back into the hash — and the input's
signature is set to `sha256(hashTx + privateKey)`.  `sha` abstracts the
hex-digest SHA-256 and `H` abstracts `calculateHash`. -/
def signLoop (sha : String → String) (H : Transaction → String) (privateKey : String) :
    Transaction → Nat → Nat → Transaction
  | tx, _, 0 => tx
  | tx, i, n + 1 =>
    signLoop sha H privateKey (setSignatureAt tx i (sha (H tx ++ privateKey))) (i + 1) n

/-- Source `Transaction.signTransaction(privateKey)`. -/
def Transaction.signTransaction (sha : String → String) (H : Transaction → String)
    (privateKey : String) (tx : Transaction) : Transaction :=
  signLoop sha H privateKey tx 0 tx.inputs.length

/-! ## Blocks (src/blockchain/Block.ts) -/

/-- Source `Block { timestamp, transactions, previousHash, nonce, powDifficulty,
index, hash }`.  The `hash` field stores whatever string the constructor or
a later assignment put there; the validation paths embedded below read the
stored field exactly as the source does. -/
structure Block where
  timestamp : Int
  transactions : List Transaction
  previousHash : String
  nonce : Int
  powDifficulty : Nat
  index : Nat
  hash : String
deriving Repr, DecidableEq, Inhabited

/-- Source `Block.hasValidTransactions`: every transaction passes
`Transaction.isValid`. -/
def Block.hasValidTransactions (b : Block) : Bool :=
  b.transactions.all Transaction.isValid

/-- Source `Block.isProofOfStake`: more than one transaction and `transactions[1]`
is a coinstake. -/
def Block.isProofOfStake (b : Block) : Bool :=
  decide (1 < b.transactions.length) &&
    (match b.transactions.get? 1 with
     | some t => t.isCoinStake
     | none => false)

/-- Source `Block.isProofOfWork`: not proof-of-stake. -/
def Block.isProofOfWork (b : Block) : Bool :=
  !b.isProofOfStake

/-- Source `Array(d + 1).join('0')`: a run of `d` zero characters. -/
def zeroRun (d : Nat) : String :=
  String.mk (List.replicate d '0')

/-- Source `Block.isValid`: for a proof-of-work block the STORED `hash` string must
start with `powDifficulty` zero characters (`hash.substring(0, d) ===
Array(d + 1).join('0')`); proof-of-stake blocks return true here. -/
def Block.isValid (b : Block) : Bool :=
  if b.isProofOfWork then
    decide (b.hash.take b.powDifficulty = zeroRun b.powDifficulty)
  else true

/-! ## Difficulty retargeting (Blockchain.calculateNewDifficulty) -/

/-- Source `Blockchain.getLatestBlock()`: `chain[chain.length - 1]`. -/
def getLatestBlock (chain : List Block) : Block :=
  chain.getLastD default

/-- Source `Blockchain.calculateNewDifficulty()`.  Chains shorter than the
adjustment interval return `chain[0].getDifficulty()`; otherwise the head's
timestamp is compared with the timestamp of
`chain[chain.length - DIFFICULTY_ADJUSTMENT_INTERVAL]`. -/
def calculateNewDifficulty (chain : List Block) : Nat :=
  if chain.length < DIFFICULTY_ADJUSTMENT_INTERVAL then
    (chain.headD default).powDifficulty
  else
    let lastBlock := getLatestBlock chain
    let lastAdjustmentBlock := (chain.get? (chain.length - DIFFICULTY_ADJUSTMENT_INTERVAL)).getD default
    let timeExpected : Int := BLOCK_TIME * (DIFFICULTY_ADJUSTMENT_INTERVAL : Int)
    let timeTaken : Int := lastBlock.timestamp - lastAdjustmentBlock.timestamp
    let newDifficulty := lastBlock.powDifficulty
    if timeTaken < timeExpected / DIFFICULTY_ADJUSTMENT_FACTOR then newDifficulty + 1
    else if timeTaken > timeExpected * DIFFICULTY_ADJUSTMENT_FACTOR then max 1 (newDifficulty - 1)
    else newDifficulty

/-- Modelled from the claim's words, for comparison with the source: the
claim states the retarget window is `chain[head.index - 10]`, indexing by
the head block's OWN `index` field minus the interval, rather than the
source's `chain[chain.length - 10]`. -/
def claimNewDifficulty (chain : List Block) : Nat :=
  if chain.length < DIFFICULTY_ADJUSTMENT_INTERVAL then
    (chain.headD default).powDifficulty
  else
    let lastBlock := getLatestBlock chain
    let adjustmentBlock := (chain.get? (lastBlock.index - DIFFICULTY_ADJUSTMENT_INTERVAL)).getD default
    let timeExpected : Int := BLOCK_TIME * (DIFFICULTY_ADJUSTMENT_INTERVAL : Int)
    let timeTaken : Int := lastBlock.timestamp - adjustmentBlock.timestamp
    let newDifficulty := lastBlock.powDifficulty
    if timeTaken < timeExpected / DIFFICULTY_ADJUSTMENT_FACTOR then newDifficulty + 1
    else if timeTaken > timeExpected * DIFFICULTY_ADJUSTMENT_FACTOR then max 1 (newDifficulty - 1)
    else newDifficulty

/-! ## Association-list embedding of JavaScript Map -/

/-- Source `Map.get`: the value at the first matching key, if any. -/
def mapGet {α : Type} (m : List (String × α)) (k : String) : Option α :=
  match m with
  | [] => none
  | (k', v) :: rest => if k' = k then some v else mapGet rest k

/-- Source `Map.set`: replace the value at an existing key in place, else append a
new entry. -/
def mapSet {α : Type} (m : List (String × α)) (k : String) (v : α) : List (String × α) :=
  match m with
  | [] => [(k, v)]
  | (k', v') :: rest => if k' = k then (k, v) :: rest else (k', v') :: mapSet rest k v

/-- Source `Map.delete`: drop the entry at the key, if present. -/
def mapDelete {α : Type} (m : List (String × α)) (k : String) : List (String × α) :=
  match m with
  | [] => []
  | (k', v') :: rest => if k' = k then rest else (k', v') :: mapDelete rest k

/-! ## Ledger state (the Blockchain class fields) -/

/-- Source `UTXO { txHash, outputIndex, output }`. -/
structure UTXO where
  txHash : String
  outputIndex : Nat
  output : TxOutput
deriving Repr, DecidableEq, Inhabited

/-- Source `StakeInfo { amount, timestamp, lastBlockTime }`. -/
structure StakeInfo where
  amount : Int
  timestamp : Int
  lastBlockTime : Int
deriving Repr, DecidableEq, Inhabited

/-- The UTXO index, `Map<string, UTXO[]>`. -/
abbrev UtxoMap := List (String × List UTXO)

/-- The stake registry, `Map<string, StakeInfo>`. -/
abbrev StakeMap := List (String × StakeInfo)

/-- The mutable fields of the `Blockchain` class that the verified
operations touch, plus a `saved` field standing for the JSON snapshot file
`saveBlockchain` writes. -/
structure ChainState where
  chain : List Block
  utxoSet : UtxoMap
  pendingTransactions : List Transaction
  stakes : StakeMap
  lastBlockTime : Int
  saved : List Block
deriving Repr, DecidableEq, Inhabited

/-- Source `Blockchain.findTransaction(txHash)`: scan blocks in chain order, inside
each block scan transactions in order, return the first transaction whose
`calculateHash()` equals the argument. -/
def findTransaction (H : Transaction → String) (chain : List Block) (txHash : String) :
    Option Transaction :=
  match chain with
  | [] => none
  | b :: rest =>
    match b.transactions.find? (fun t => H t == txHash) with
    | some t => some t
    | none => findTransaction H rest txHash

/-! ## UTXO bookkeeping (Blockchain.updateUTXOSet)

Two versions of `updateUTXOSet` exist in the repository's Blockchain files:
the one in `src/blockchain/Blockchain.ts` removes a spent entry with
`findIndex` + `splice` (first match only, and only writes the map back when
a match was found), while the `replaceChain`-bearing variant of the file
removes with `filter` (all matches, always writing the map back).  Both are
embedded; `addMinedBlock` below uses the splice version and `replaceChain`
the filter version, following their respective files.

Both versions read
`this.findTransaction(input.previousTx)?.outputs[input.outputIndex].address`:
when the referenced transaction IS found but `outputIndex` is out of range,
the source dereferences `.address` of `undefined` and throws a TypeError at
runtime.  The embedding returns `some "TypeError"` on that path.  A falsy
(empty) address string skips the removal, exactly like `if (address)`. -/

/-- Remove the first UTXO entry matching the (previousTx, outputIndex) key:
`findIndex` + `splice(index, 1)`. -/
def removeFirstUtxo (l : List UTXO) (ptx : String) (idx : Nat) : List UTXO :=
  match l with
  | [] => []
  | u :: rest =>
    if u.txHash = ptx ∧ u.outputIndex = idx then rest
    else u :: removeFirstUtxo rest ptx idx

/-- Spend one input, splice version (src/blockchain/Blockchain.ts).  The map
is written back only when a matching entry was found. -/
def spendInput (H : Transaction → String) (chain : List Block) (u : UtxoMap)
    (inp : TxInput) : Option String × UtxoMap :=
  match findTransaction H chain inp.previousTx with
  | none => (none, u)
  | some prev =>
    match prev.outputs.get? inp.outputIndex with
    | none => (some "TypeError", u)
    | some o =>
      if o.address = "" then (none, u)
      else
        let utxos := (mapGet u o.address).getD []
        if (utxos.find? fun x => x.txHash == inp.previousTx && x.outputIndex == inp.outputIndex).isSome then
          (none, mapSet u o.address (removeFirstUtxo utxos inp.previousTx inp.outputIndex))
        else (none, u)

/-- Spend a transaction's inputs in order, splice version, stopping at the
first TypeError. -/
def spendInputs (H : Transaction → String) (chain : List Block) :
    UtxoMap → List TxInput → Option String × UtxoMap
  | u, [] => (none, u)
  | u, inp :: rest =>
    match spendInput H chain u inp with
    | (some e, u') => (some e, u')
    | (none, u') => spendInputs H chain u' rest

/-- Append one freshly created UTXO under its output's address
(`utxos.push(...); utxoSet.set(address, utxos)`). -/
def addOutput (u : UtxoMap) (txh : String) (idx : Nat) (o : TxOutput) : UtxoMap :=
  mapSet u o.address (((mapGet u o.address).getD []) ++ [⟨txh, idx, o⟩])

/-- Add all outputs of a transaction, with their indices
(`tx.outputs.forEach((output, index) => ...)`). -/
def addOutputsFrom (u : UtxoMap) (txh : String) (idx : Nat) : List TxOutput → UtxoMap
  | [] => u
  | o :: rest => addOutputsFrom (addOutput u txh idx o) txh (idx + 1) rest

/-- Apply one transaction to the UTXO index, splice version: remove the
spent entries, then add every output under the transaction's hash. -/
def applyTxUtxo (H : Transaction → String) (chain : List Block) (u : UtxoMap)
    (tx : Transaction) : Option String × UtxoMap :=
  let txh := H tx
  match spendInputs H chain u tx.inputs with
  | (some e, u') => (some e, u')
  | (none, u') => (none, addOutputsFrom u' txh 0 tx.outputs)

/-- Source `Blockchain.updateUTXOSet(block)`, splice version: transactions are
processed in order; `chain` is the chain the source's `findTransaction`
searches at that moment (it already contains the block being applied). -/
def updateUTXOSet (H : Transaction → String) (chain : List Block) :
    UtxoMap → List Transaction → Option String × UtxoMap
  | u, [] => (none, u)
  | u, tx :: rest =>
    match applyTxUtxo H chain u tx with
    | (some e, u') => (some e, u')
    | (none, u') => updateUTXOSet H chain u' rest

/-- Spend one input, filter version (the `replaceChain`-bearing file): all
matching entries are dropped and the map is always written back. -/
def spendInputF (H : Transaction → String) (chain : List Block) (u : UtxoMap)
    (inp : TxInput) : Option String × UtxoMap :=
  match findTransaction H chain inp.previousTx with
  | none => (none, u)
  | some prev =>
    match prev.outputs.get? inp.outputIndex with
    | none => (some "TypeError", u)
    | some o =>
      if o.address = "" then (none, u)
      else
        let utxos := (mapGet u o.address).getD []
        (none, mapSet u o.address
          (utxos.filter fun x => !(x.txHash == inp.previousTx) || !(x.outputIndex == inp.outputIndex)))

/-- Spend a transaction's inputs in order, filter version. -/
def spendInputsF (H : Transaction → String) (chain : List Block) :
    UtxoMap → List TxInput → Option String × UtxoMap
  | u, [] => (none, u)
  | u, inp :: rest =>
    match spendInputF H chain u inp with
    | (some e, u') => (some e, u')
    | (none, u') => spendInputsF H chain u' rest

/-- Apply one transaction to the UTXO index, filter version. -/
def applyTxUtxoF (H : Transaction → String) (chain : List Block) (u : UtxoMap)
    (tx : Transaction) : Option String × UtxoMap :=
  let txh := H tx
  match spendInputsF H chain u tx.inputs with
  | (some e, u') => (some e, u')
  | (none, u') => (none, addOutputsFrom u' txh 0 tx.outputs)

/-- Source `Blockchain.updateUTXOSet(block)`, filter version. -/
def updateUTXOSetF (H : Transaction → String) (chain : List Block) :
    UtxoMap → List Transaction → Option String × UtxoMap
  | u, [] => (none, u)
  | u, tx :: rest =>
    match applyTxUtxoF H chain u tx with
    | (some e, u') => (some e, u')
    | (none, u') => updateUTXOSetF H chain u' rest

/-! ## Stake validation -/

/-- Source `Blockchain.validateStake(stakeTransaction)` as in
`src/blockchain/Blockchain.ts`: coinstake shape, minimum amount on
`outputs[1]`, the referenced previous output exists with the same amount,
stake age `(Date.now() - prevTx.timestamp) / 1000 ≥ MIN_STAKE_AGE`
(embedded exactly as `now - prevTx.timestamp ≥ MIN_STAKE_AGE * 1000`), and
the previous output pays the same address as `outputs[1]`. -/
def validateStake (H : Transaction → String) (now : Int) (chain : List Block)
    (stakeTransaction : Transaction) : Bool :=
  if ¬ stakeTransaction.isCoinStake then false
  else
    let stakeInput := stakeTransaction.inputs.headD default
    let stakeOutput := (stakeTransaction.outputs.get? 1).getD default
    if stakeOutput.amount < MIN_STAKE_AMOUNT then false
    else
      match findTransaction H chain stakeInput.previousTx with
      | none => false
      | some prevTx =>
        match prevTx.outputs.get? stakeInput.outputIndex with
        | none => false
        | some prevOutput =>
          if prevOutput.amount ≠ stakeOutput.amount then false
          else if now - prevTx.timestamp < MIN_STAKE_AGE * 1000 then false
          else if prevOutput.address ≠ stakeOutput.address then false
          else true

/-- Source `Blockchain.validateStake` as in the `replaceChain`-bearing variant of
the file: same checks, but with a double-stake guard — the referenced
previous output must still be present in the UTXO index of its address —
inserted between the age check and the address-equality check. -/
def validateStakeG (H : Transaction → String) (now : Int) (chain : List Block)
    (utxo : UtxoMap) (stakeTransaction : Transaction) : Bool :=
  if ¬ stakeTransaction.isCoinStake then false
  else
    let stakeInput := stakeTransaction.inputs.headD default
    let stakeOutput := (stakeTransaction.outputs.get? 1).getD default
    if stakeOutput.amount < MIN_STAKE_AMOUNT then false
    else
      match findTransaction H chain stakeInput.previousTx with
      | none => false
      | some prevTx =>
        match prevTx.outputs.get? stakeInput.outputIndex with
        | none => false
        | some prevOutput =>
          if prevOutput.amount ≠ stakeOutput.amount then false
          else if now - prevTx.timestamp < MIN_STAKE_AGE * 1000 then false
          else if ¬ (((mapGet utxo prevOutput.address).getD []).any fun x =>
              x.txHash == stakeInput.previousTx && x.outputIndex == stakeInput.outputIndex) then false
          else if prevOutput.address ≠ stakeOutput.address then false
          else true

/-! ## Ledger operations -/

/-- Source `Blockchain.canAcceptPowBlock()`: `chain.length < POW_CUTOFF_BLOCK`. -/
def canAcceptPowBlock (chain : List Block) : Bool :=
  decide (chain.length < POW_CUTOFF_BLOCK)

/-- The commit tail of `addMinedBlock`: `chain.push(block)`, record
`lastBlockTime`, clear pending, `updateUTXOSet(block)` (which searches the
chain that now contains the block), then `saveBlockchain()`.  When
`updateUTXOSet` raises its TypeError, the push and the clearing of pending
have already happened and the snapshot is NOT written. -/
def pushBlock (H : Transaction → String) (st : ChainState) (block : Block) :
    Option String × ChainState :=
  let chain2 := st.chain ++ [block]
  match updateUTXOSet H chain2 st.utxoSet block.transactions with
  | (some e, u2) =>
    (some e, { st with chain := chain2, lastBlockTime := block.timestamp,
                       pendingTransactions := [], utxoSet := u2 })
  | (none, u2) =>
    (none, { st with chain := chain2, lastBlockTime := block.timestamp,
                     pendingTransactions := [], utxoSet := u2, saved := chain2 })

/-- Source `Blockchain.addMinedBlock(block)`: the validation gauntlet followed by
the commit.  Every `throw` in the source corresponds to a `some message`
result; the state is returned unchanged on those throws because the source
mutates nothing before them. -/
def addMinedBlock (H : Transaction → String) (now : Int) (st : ChainState)
    (block : Block) : Option String × ChainState :=
  if ¬ block.hasValidTransactions then (some "Block contains invalid transactions", st)
  else
    let lastBlock := getLatestBlock st.chain
    if block.timestamp - lastBlock.timestamp < BLOCK_TIME * 1000 then
      (some "Block created too quickly", st)
    else if block.previousHash ≠ lastBlock.hash then (some "Invalid previous hash", st)
    else if block.index ≠ st.chain.length then (some "Invalid block index", st)
    else if block.isProofOfWork ∧ ¬ canAcceptPowBlock st.chain then
      (some "PoW blocks no longer accepted after block 100", st)
    else if block.isProofOfWork then
      if block.powDifficulty ≠ calculateNewDifficulty st.chain then
        (some "Invalid block difficulty", st)
      else if ¬ block.isValid then (some "Invalid proof of work", st)
      else pushBlock H st block
    else if block.isProofOfStake then
      if ¬ validateStake H now st.chain ((block.transactions.get? 1).getD default) then
        (some "Invalid stake", st)
      else pushBlock H st block
    else pushBlock H st block

/-- Source `Blockchain.addTransaction(transaction)`: reject when inputs or outputs
are empty, reject when `isValid()` is false, otherwise push onto the
pending list. -/
def addTransaction (st : ChainState) (transaction : Transaction) :
    Option String × ChainState :=
  if transaction.inputs.length = 0 ∨ transaction.outputs.length = 0 then
    (some "Transaction must have inputs and outputs", st)
  else if ¬ transaction.isValid then
    (some "Cannot add invalid transaction to chain", st)
  else
    (none, { st with pendingTransactions := st.pendingTransactions ++ [transaction] })

/-- Source `Blockchain.unstake(address, amount)`. -/
def unstake (st : ChainState) (address : String) (amount : Int) :
    Option String × ChainState :=
  match mapGet st.stakes address with
  | none => (some "No stake found for address", st)
  | some currentStake =>
    if currentStake.amount < amount then (some "Insufficient stake amount", st)
    else
      let remainingStake := currentStake.amount - amount
      if remainingStake = 0 then (none, { st with stakes := mapDelete st.stakes address })
      else
        let newInfo : StakeInfo :=
          ⟨remainingStake, currentStake.timestamp, currentStake.lastBlockTime⟩
        (none, { st with stakes := mapSet st.stakes address newInfo })

/-- Source `Blockchain.getBalance(address)`: sum of the amounts of the UTXOs held
under the address in the index (empty list when the address is absent). -/
def getBalance (st : ChainState) (address : String) : Int :=
  ((mapGet st.utxoSet address).getD []).foldl (fun sum u => sum + u.output.amount) 0

/-- The input scan of `getTotalBalance` for one transaction: subtract the
amount of every resolvable input whose referenced output pays the queried
address.  `none` models the TypeError the source raises when the referenced
transaction is found but `outputIndex` is out of range (it reads
`prevTx.outputs[i].address` unguarded). -/
def txInputsBalance (H : Transaction → String) (chain : List Block) (address : String) :
    List TxInput → Int → Option Int
  | [], acc => some acc
  | inp :: rest, acc =>
    match findTransaction H chain inp.previousTx with
    | none => txInputsBalance H chain address rest acc
    | some prevTx =>
      match prevTx.outputs.get? inp.outputIndex with
      | none => none
      | some o =>
        txInputsBalance H chain address rest (if o.address = address then acc - o.amount else acc)

/-- One transaction's step of `getTotalBalance`: inputs, then outputs. -/
def txBalance (H : Transaction → String) (chain : List Block) (address : String)
    (acc : Int) (tx : Transaction) : Option Int :=
  match txInputsBalance H chain address tx.inputs acc with
  | none => none
  | some acc2 =>
    some (tx.outputs.foldl (fun a o => if o.address = address then a + o.amount else a) acc2)

/-- Fold `txBalance` over a transaction list. -/
def txsBalance (H : Transaction → String) (chain : List Block) (address : String) :
    List Transaction → Int → Option Int
  | [], acc => some acc
  | tx :: rest, acc =>
    match txBalance H chain address acc tx with
    | none => none
    | some acc2 => txsBalance H chain address rest acc2

/-- Fold over a block list; `chain` is the full chain every input is
resolved against. -/
def blocksBalance (H : Transaction → String) (chain : List Block) (address : String) :
    List Block → Int → Option Int
  | [], acc => some acc
  | b :: rest, acc =>
    match txsBalance H chain address b.transactions acc with
    | none => none
    | some acc2 => blocksBalance H chain address rest acc2

/-- Source `Blockchain.getTotalBalance(address)`: replay every confirmed
transaction in chain order, subtracting resolvable spends that paid the
address and adding outputs that pay it. -/
def getTotalBalance (H : Transaction → String) (st : ChainState) (address : String) :
    Option Int :=
  blocksBalance H st.chain address st.chain 0

/-- Source `Blockchain.calculateStakeWeight(address)` as in the
`replaceChain`-bearing variant of the file: elapsed time is
`stake.lastBlockTime - stake.timestamp`, clamped to a non-negative whole
number of days (`Math.max(0, Math.floor(elapsedMs / 86400000))`), and when
at least one day has elapsed the weight is
`Math.floor(amount * 1.1 ** days)`.  The float arithmetic is embedded
exactly: `Math.floor` of the exact rational `amount * (11/10) ^ days` is
the integer euclidean quotient `(amount * 11 ^ days) / 10 ^ days` (the
divisor is positive), and `Math.floor(elapsedMs / 86400000)` is
`elapsedMs / 86400000` in euclidean division.  The bridge to the literal
`floor` formulation is proved below (`stakeWeight_eq_ratFloor`,
`ediv_eq_ratFloor`). -/
def calculateStakeWeight (st : ChainState) (address : String) : Int :=
  match mapGet st.stakes address with
  | none => 0
  | some stake =>
    let elapsedMs := stake.lastBlockTime - stake.timestamp
    let elapsedDays : Int := max 0 (elapsedMs / (24 * 60 * 60 * 1000))
    if 0 < elapsedDays then
      (stake.amount * 11 ^ elapsedDays.toNat) / 10 ^ elapsedDays.toNat
    else stake.amount

/-! ## Chain replacement (Blockchain.replaceChain) -/

/-- The validation body of `replaceChain` for the block at position `i`
(`i ≥ 1`): parent link, transaction validity, proof-of-work check and
cutoff for PoW blocks, and — for PoS blocks at or past the cutoff — stake
validation against the CURRENT (pre-replacement) chain and UTXO index.
Genesis equality, `block.index`, and timestamp spacing are never read. -/
def checkChainBlock (H : Transaction → String) (now : Int) (st : ChainState)
    (i : Nat) (previousBlock block : Block) : Option String :=
  if block.previousHash ≠ previousBlock.hash then some "Invalid chain: broken link"
  else if ¬ block.hasValidTransactions then some "Invalid chain: invalid transactions"
  else if block.isProofOfWork then
    if ¬ block.isValid then some "Invalid chain: invalid proof of work"
    else if POW_CUTOFF_BLOCK ≤ i then some "Invalid chain: PoW block after cutoff"
    else none
  else if block.isProofOfStake ∧ POW_CUTOFF_BLOCK ≤ i then
    if ¬ validateStakeG H now st.chain st.utxoSet ((block.transactions.get? 1).getD default) then
      some "Invalid chain: invalid stake"
    else none
  else none

/-- The `for (let i = 1; ...)` loop of `replaceChain`: check each block of
the tail against its predecessor, stopping at the first failure. -/
def checkChainFrom (H : Transaction → String) (now : Int) (st : ChainState) :
    Nat → Block → List Block → Option String
  | _, _, [] => none
  | i, prev, b :: rest =>
    match checkChainBlock H now st i prev b with
    | some e => some e
    | none => checkChainFrom H now st (i + 1) b rest

/-- The UTXO rebuild of `replaceChain`: clear the index, then apply every
block of the (already installed) new chain in order with the filter-version
`updateUTXOSet`, resolving inputs against the FULL new chain.  Stops at the
first TypeError, leaving the partial index in place. -/
def rebuildFrom (H : Transaction → String) (chain : List Block) :
    UtxoMap → List Block → Option String × UtxoMap
  | u, [] => (none, u)
  | u, b :: rest =>
    match updateUTXOSetF H chain u b.transactions with
    | (some e, u2) => (some e, u2)
    | (none, u2) => rebuildFrom H chain u2 rest

/-- Source `Blockchain.replaceChain(newChain)` (mutex aside): reject chains no
longer than the current one; validate positions `1 .. newChain.length - 1`
with `checkChainBlock`; on success install the new chain, rebuild the UTXO
index by full replay, drop pending transactions whose hash now appears in
the chain, and persist.  A validation throw leaves the state untouched; a
TypeError during the rebuild happens after the chain was installed. -/
def replaceChain (H : Transaction → String) (now : Int) (st : ChainState)
    (newChain : List Block) : Option String × ChainState :=
  if newChain.length ≤ st.chain.length then
    (some "Received chain is not longer than current chain", st)
  else
    match newChain with
    | [] => (some "Received chain is not longer than current chain", st)
    | g :: rest =>
      match checkChainFrom H now st 1 g rest with
      | some e => (some e, st)
      | none =>
        match rebuildFrom H newChain [] newChain with
        | (some e, u2) => (some e, { st with chain := newChain, utxoSet := u2 })
        | (none, u2) =>
          let chainTxHashes := (newChain.map fun b => b.transactions.map H).flatten
          (none, { st with chain := newChain, utxoSet := u2,
                           pendingTransactions := st.pendingTransactions.filter
                             (fun tx => ¬ chainTxHashes.contains (H tx)),
                           saved := newChain })

/-! ## Peer reconnection (P2PServer.reconnectToPeer) -/

/-- Source `maxAttempts = 10`. -/
def maxReconnectAttempts : Nat := 10

/-- The backoff delay before attempt number `attempt`:
`Math.min(baseDelay * Math.pow(2, attempt - 1), 30000)` with
`baseDelay = 1000`. -/
def reconnectDelay (attempt : Nat) : Nat :=
  min (1000 * 2 ^ (attempt - 1)) 30000

/-- One step of `reconnectToPeer(peer, attempt)`: when `attempt` exceeds
`maxAttempts` the function returns without scheduling anything; otherwise
it sleeps `reconnectDelay attempt` milliseconds before dialing, and a
failure recurses with `attempt + 1`. -/
def reconnectStep (attempt : Nat) : Option Nat :=
  if maxReconnectAttempts < attempt then none
  else some (reconnectDelay attempt)

/-- The full delay schedule produced when every attempt from `attempt`
onwards fails: one delay per attempt up to and including attempt 10. -/
def reconnectSchedule (attempt : Nat) : List Nat :=
  (List.range' attempt (maxReconnectAttempts + 1 - attempt)).map reconnectDelay

/-! ## C8: reconnect backoff -/

/-- C8: for every reconnection attempt number `n` starting at 1,
`reconnectToPeer` waits `min(1000 * 2^(n-1), 30000)` milliseconds before
the `n`-th retry, and makes no further attempt once `n` exceeds 10; the
resulting schedule when every attempt fails is
1s, 2s, 4s, 8s, 16s, then 30s capped, for exactly 10 attempts. -/
theorem C8_reconnect_backoff :
    (∀ n : Nat, 1 ≤ n → n ≤ 10 →
      reconnectStep n = some (min (1000 * 2 ^ (n - 1)) 30000)) ∧
    (∀ n : Nat, 10 < n → reconnectStep n = none) ∧
    reconnectSchedule 1 =
      [1000, 2000, 4000, 8000, 16000, 30000, 30000, 30000, 30000, 30000] := by
  refine ⟨?_, ?_, by decide⟩
  · intro n _ h2
    unfold reconnectStep maxReconnectAttempts reconnectDelay
    rw [if_neg (by omega)]
  · intro n h
    unfold reconnectStep maxReconnectAttempts
    rw [if_pos (by omega)]

/-- C8 witness: the sixth attempt waits the 30-second cap and the eleventh
attempt never fires. -/
theorem C8_witness :
    reconnectStep 6 = some 30000 ∧ reconnectStep 11 = none := by
  constructor
  · have h := C8_reconnect_backoff.1 6 (by decide) (by decide)
    simpa using h
  · exact C8_reconnect_backoff.2.1 11 (by decide)

/-! ## C9: addTransaction performs no UTXO checks -/

/-- C9: `addTransaction` accepts, and appends to the pending list, every
transaction with nonempty inputs, nonempty outputs and nonempty input
signatures — for EVERY ledger state, so in particular regardless of whether
the referenced previous outputs exist in the chain, are unspent in the
UTXO index, or cover the output amounts. -/
theorem C9_addTransaction_permissive (st : ChainState) (tx : Transaction)
    (hin : tx.inputs ≠ []) (hout : tx.outputs ≠ [])
    (hsig : ∀ inp ∈ tx.inputs, inp.signature ≠ "") :
    addTransaction st tx =
      (none, { st with pendingTransactions := st.pendingTransactions ++ [tx] }) := by
  unfold addTransaction
  rw [if_neg (by simp [List.length_eq_zero]; exact ⟨hin, hout⟩)]
  rw [if_neg ?_]
  intro hbad
  unfold Transaction.isValid at hbad
  rw [if_neg (by intro ⟨h1, _⟩; exact hin h1)] at hbad
  simp only [List.all_eq_true] at hbad
  push_neg at hbad
  obtain ⟨inp, hmem, hfls⟩ := hbad
  exact hfls (by simpa using hsig inp hmem)

/-- C9 witness: a transaction spending a previous output that exists
nowhere (its `previousTx` hash matches no transaction of the empty chain)
is accepted into the pending set. -/
theorem C9_witness :
    addTransaction ⟨[], [], [], [], 0, []⟩ ⟨[⟨"no-such-tx", 9, "sig"⟩], [⟨"a", 7⟩], 0, 0⟩ =
      (none, ⟨[], [], [⟨[⟨"no-such-tx", 9, "sig"⟩], [⟨"a", 7⟩], 0, 0⟩], [], 0, []⟩) := by
  have h := C9_addTransaction_permissive ⟨[], [], [], [], 0, []⟩
    ⟨[⟨"no-such-tx", 9, "sig"⟩], [⟨"a", 7⟩], 0, 0⟩ (by decide) (by decide) (by decide)
  simpa using h

/-! ## C7: unstake -/

/-- C7: `unstake(address, amount)` throws `NoStake` when the address has no
registered stake, throws `InsufficientStake` when the registered amount is
strictly below `amount`, and otherwise succeeds, decrementing the
registered stake by `amount` and deleting the registry entry exactly when
the remainder is zero; the chain, UTXO index and pending set are unchanged
in every case. -/
theorem C7_unstake (st : ChainState) (address : String) (amount : Int) :
    (mapGet st.stakes address = none →
      unstake st address amount = (some "No stake found for address", st)) ∧
    (∀ s, mapGet st.stakes address = some s → s.amount < amount →
      unstake st address amount = (some "Insufficient stake amount", st)) ∧
    (∀ s, mapGet st.stakes address = some s → amount ≤ s.amount →
      (unstake st address amount).1 = none ∧
      (unstake st address amount).2.chain = st.chain ∧
      (unstake st address amount).2.utxoSet = st.utxoSet ∧
      (unstake st address amount).2.pendingTransactions = st.pendingTransactions ∧
      (unstake st address amount).2.stakes =
        (if s.amount - amount = 0 then mapDelete st.stakes address
         else mapSet st.stakes address ⟨s.amount - amount, s.timestamp, s.lastBlockTime⟩)) := by
  refine ⟨?_, ?_, ?_⟩
  · intro h
    unfold unstake
    rw [h]
  · intro s hs hl
    unfold unstake
    rw [hs]
    simp only
    rw [if_pos hl]
  · intro s hs hle
    unfold unstake
    rw [hs]
    simp only
    rw [if_neg (by omega)]
    by_cases hz : s.amount - amount = 0
    · rw [if_pos hz, if_pos hz]
      exact ⟨rfl, rfl, rfl, rfl, rfl⟩
    · rw [if_neg hz, if_neg hz]
      exact ⟨rfl, rfl, rfl, rfl, rfl⟩

/-- C7 witness: with a registered stake of 100, unstaking 40 leaves 60
registered; unstaking from an unknown address throws with the state
unchanged. -/
theorem C7_witness :
    (unstake ⟨[], [], [], [("alice", ⟨100, 5, 6⟩)], 0, []⟩ "alice" 40).2.stakes =
      [("alice", ⟨60, 5, 6⟩)] ∧
    unstake ⟨[], [], [], [], 0, []⟩ "bob" 1 =
      (some "No stake found for address", ⟨[], [], [], [], 0, []⟩) := by
  constructor
  · have h := (C7_unstake ⟨[], [], [], [("alice", ⟨100, 5, 6⟩)], 0, []⟩ "alice" 40).2.2
      ⟨100, 5, 6⟩ (by decide) (by decide)
    rw [h.2.2.2.2]
    decide
  · exact (C7_unstake ⟨[], [], [], [], 0, []⟩ "bob" 1).1 (by decide)

/-! ## C10: unstake has no positivity check on the amount -/

/-- C10: `unstake` never checks that `amount` is positive: whenever the
registered stake is `s` and `amount ≤ s.amount` — including `amount = 0`
and negative amounts — the call succeeds and stores `s.amount - amount`,
so a negative amount strictly increases the registered stake; the entry is
deleted only when the remainder is exactly zero. -/
theorem C10_unstake_no_positivity_check (st : ChainState) (address : String)
    (amount : Int) (s : StakeInfo) (hs : mapGet st.stakes address = some s)
    (hle : amount ≤ s.amount) :
    (unstake st address amount).1 = none ∧
    (unstake st address amount).2.stakes =
      (if s.amount - amount = 0 then mapDelete st.stakes address
       else mapSet st.stakes address ⟨s.amount - amount, s.timestamp, s.lastBlockTime⟩) ∧
    (amount < 0 → s.amount < s.amount - amount) := by
  unfold unstake
  rw [hs]
  simp only
  rw [if_neg (by omega)]
  by_cases hz : s.amount - amount = 0
  · rw [if_pos hz, if_pos hz]
    exact ⟨rfl, rfl, by omega⟩
  · rw [if_neg hz, if_neg hz]
    exact ⟨rfl, rfl, by omega⟩

/-- C10 witness: unstaking `-50` from a stake of 100 succeeds and grows the
registered stake to 150. -/
theorem C10_witness :
    (unstake ⟨[], [], [], [("alice", ⟨100, 5, 6⟩)], 0, []⟩ "alice" (-50)).1 = none ∧
    (unstake ⟨[], [], [], [("alice", ⟨100, 5, 6⟩)], 0, []⟩ "alice" (-50)).2.stakes =
      [("alice", ⟨150, 5, 6⟩)] := by
  have h := C10_unstake_no_positivity_check ⟨[], [], [], [("alice", ⟨100, 5, 6⟩)], 0, []⟩
    "alice" (-50) ⟨100, 5, 6⟩ (by decide) (by decide)
  refine ⟨h.1, ?_⟩
  rw [h.2.1]
  decide

/-! ## C5: isValid does not bind signatures to the transaction hash -/

/-- A concrete stand-in for the hex SHA-256 digest used when signing. -/
def sha5 : String → String := fun s => "sig-of-" ++ s

/-- A concrete transaction-hash assignment that discriminates by nonce. -/
def hash5 : Transaction → String := fun tx =>
  if tx.nonce = 1 then "txh-one" else "txh-two"

/-- An unsigned two-output transaction with one input. -/
def tx5base : Transaction :=
  ⟨[⟨"prev", 0, ""⟩], [⟨"alice", 5⟩, ⟨"bob", 3⟩], 0, 1⟩

/-- Transaction `tx5base` after `signTransaction`: its input signature is the digest of
`tx5base`'s hash concatenated with the private key. -/
def tx5signed : Transaction :=
  tx5base.signTransaction sha5 hash5 "key"

/-- The same inputs — hence the same signatures, produced over `tx5base`'s
hash — carried by a transaction with a different nonce and therefore a
different hash. -/
def tx5carried : Transaction :=
  { tx5signed with nonce := 2 }

/-- C5 counterexample: a normal (non-coinbase-shaped) transaction whose
input carries the nonempty signature that `signTransaction` produced over a
DIFFERENT transaction's hash is nevertheless reported valid, refuting the
claim that `isValid` only accepts signatures bound to this transaction's
hash. -/
theorem C5_counterexample :
    tx5carried.isValid = true ∧
    tx5carried.inputs = [⟨"prev", 0, sha5 (hash5 tx5base ++ "key")⟩] ∧
    hash5 tx5carried ≠ hash5 tx5base ∧
    ¬ (tx5carried.inputs = [] ∧ tx5carried.outputs.length = 1) := by
  refine ⟨by decide, by decide, by decide, by decide⟩

/-- C5 amended: for a non-coinbase-shaped transaction, `isValid` returns
true exactly when every input carries a NONEMPTY signature string; the
signature is never checked against the transaction's hash (or
cryptographically at all). -/
theorem C5_amended (tx : Transaction)
    (hnormal : ¬ (tx.inputs = [] ∧ tx.outputs.length = 1)) :
    (tx.isValid = true ↔ ∀ inp ∈ tx.inputs, inp.signature ≠ "") := by
  unfold Transaction.isValid
  rw [if_neg hnormal]
  simp [List.all_eq_true]

/-- C5 witness: the amended characterization evaluated on the concrete
carried-signature transaction, whose inputs all carry nonempty signatures. -/
theorem C5_witness : tx5carried.isValid = true :=
  (C5_amended tx5carried (by decide)).mpr (by decide)

/-! ## C6: stake weight formula and monotonicity -/

/-- The number of whole elapsed days `calculateStakeWeight` uses, clamped
at zero. -/
def elapsedDaysOf (elapsedMs : Int) : Int :=
  max 0 (elapsedMs / (24 * 60 * 60 * 1000))

/-- Bridge: integer euclidean division by a positive natural literal is the
floor of the exact rational quotient — so the embedding's `e / 86400000`
is exactly `Math.floor(e / 86400000)`. -/
theorem ediv_eq_ratFloor (n : Int) (d : Nat) :
    n / (d : Int) = Int.floor ((n : ℚ) / (d : ℚ)) :=
  (Rat.floor_intCast_div_natCast n d).symm

/-- Bridge: the integer quotient `(a * 11 ^ d) / 10 ^ d` is exactly
`floor(a * (11/10) ^ d)` over the rationals. -/
theorem stakeWeight_eq_ratFloor (a : Int) (d : Nat) :
    (a * 11 ^ d) / 10 ^ d = Int.floor ((a : ℚ) * (11 / 10 : ℚ) ^ d) := by
  have h1 : (a : ℚ) * (11 / 10 : ℚ) ^ d = ((a * 11 ^ d : ℤ) : ℚ) / ((10 ^ d : ℕ) : ℚ) := by
    push_cast
    rw [div_pow, mul_div_assoc]
  rw [h1, Rat.floor_intCast_div_natCast]
  push_cast
  rfl

/-- Helper: the floor formula is monotone in the day count when the amount
is non-negative. -/
theorem stakeWeight_pow_mono (a : Int) (ha : 0 ≤ a) {d d' : Nat} (hd : d ≤ d') :
    Int.floor ((a : ℚ) * (11 / 10 : ℚ) ^ d) ≤
      Int.floor ((a : ℚ) * (11 / 10 : ℚ) ^ d') := by
  apply Int.floor_le_floor
  apply mul_le_mul_of_nonneg_left _ (by exact_mod_cast ha)
  exact pow_le_pow_right₀ (by norm_num) hd

/-- Helper: the clamped day count is monotone in the elapsed time. -/
theorem elapsedDaysOf_mono {e e' : Int} (h : e ≤ e') :
    elapsedDaysOf e ≤ elapsedDaysOf e' := by
  unfold elapsedDaysOf
  apply max_le_max le_rfl
  exact Int.ediv_le_ediv (by norm_num) h

/-- Helper: the branchy weight body equals the single floor formula (the
day count is clamped non-negative, so the zero-day branch is the `d = 0`
case of the formula). -/
theorem stakeWeight_formula (a elapsedMs : Int) :
    (if 0 < elapsedDaysOf elapsedMs then
      (a * 11 ^ (elapsedDaysOf elapsedMs).toNat) / 10 ^ (elapsedDaysOf elapsedMs).toNat
     else a) =
      Int.floor ((a : ℚ) * (11 / 10 : ℚ) ^ (elapsedDaysOf elapsedMs).toNat) := by
  by_cases h : 0 < elapsedDaysOf elapsedMs
  · rw [if_pos h]
    exact stakeWeight_eq_ratFloor a (elapsedDaysOf elapsedMs).toNat
  · rw [if_neg h]
    have h1 : 0 ≤ elapsedDaysOf elapsedMs := le_max_left _ _
    have h0 : elapsedDaysOf elapsedMs = 0 := by omega
    rw [h0]
    simp

/-- C6: with the stake amount and stake start fixed (and the amount
non-negative, as every registered stake is), `calculateStakeWeight` equals
`floor(amount * 1.1 ^ d)` with `d = max(0, floor(elapsed_ms / 86400000))`
and `elapsed_ms = lastBlockTime - timestamp`, and it never decreases when
the elapsed time grows. -/
theorem C6_stake_weight (st st' : ChainState) (address : String) (s s' : StakeInfo)
    (hs : mapGet st.stakes address = some s) (hs' : mapGet st'.stakes address = some s')
    (hamount : s'.amount = s.amount) (hpos : 0 ≤ s.amount)
    (hmono : s.lastBlockTime - s.timestamp ≤ s'.lastBlockTime - s'.timestamp) :
    calculateStakeWeight st address =
      Int.floor ((s.amount : ℚ) * (11 / 10 : ℚ) ^
        (max 0 (Int.floor ((s.lastBlockTime - s.timestamp : ℤ) / (86400000 : ℚ)))).toNat) ∧
    calculateStakeWeight st address ≤ calculateStakeWeight st' address := by
  have hdayseq : ∀ e : Int, elapsedDaysOf e = max 0 (Int.floor ((e : ℚ) / (86400000 : ℚ))) := by
    intro e
    unfold elapsedDaysOf
    rw [show ((24 * 60 * 60 * 1000 : ℤ)) = ((86400000 : ℕ) : ℤ) by norm_num,
      ediv_eq_ratFloor e 86400000]
    norm_num
  have hw : ∀ (t : ChainState) (q : StakeInfo), mapGet t.stakes address = some q →
      calculateStakeWeight t address =
        Int.floor ((q.amount : ℚ) * (11 / 10 : ℚ) ^
          (elapsedDaysOf (q.lastBlockTime - q.timestamp)).toNat) := by
    intro t q hq
    unfold calculateStakeWeight
    rw [hq]
    exact stakeWeight_formula q.amount (q.lastBlockTime - q.timestamp)
  constructor
  · rw [hw st s hs, hdayseq]
  · rw [hw st s hs, hw st' s' hs', hamount]
    apply stakeWeight_pow_mono s.amount hpos
    have hdays := elapsedDaysOf_mono hmono
    have h0 : 0 ≤ elapsedDaysOf (s.lastBlockTime - s.timestamp) := le_max_left _ _
    omega

/-- C6 witness: a 100-coin stake two days into its life weighs
`floor(100 * 1.21) = 121`, and one more day cannot lower it. -/
theorem C6_witness :
    calculateStakeWeight ⟨[], [], [], [("alice", ⟨100, 0, 172800000⟩)], 0, []⟩ "alice" = 121 ∧
    calculateStakeWeight ⟨[], [], [], [("alice", ⟨100, 0, 172800000⟩)], 0, []⟩ "alice" ≤
      calculateStakeWeight ⟨[], [], [], [("alice", ⟨100, 0, 259200000⟩)], 0, []⟩ "alice" := by
  have h := C6_stake_weight ⟨[], [], [], [("alice", ⟨100, 0, 172800000⟩)], 0, []⟩
    ⟨[], [], [], [("alice", ⟨100, 0, 259200000⟩)], 0, []⟩ "alice"
    ⟨100, 0, 172800000⟩ ⟨100, 0, 259200000⟩ (by decide) (by decide) rfl (by decide) (by decide)
  exact ⟨by decide, h.2⟩

/-! ## C3: difficulty retargeting window -/

/-- Helper: `getLastD` is lookup at position `length - 1`. -/
theorem getLastD_eq_get? {α : Type} (l : List α) (d : α) :
    l.getLastD d = (l.get? (l.length - 1)).getD d := by
  cases l with
  | nil => rfl
  | cons a as =>
    rw [List.getLastD_eq_getLast?, List.getLast?_eq_getElem?]
    simp [List.get?_eq_getElem?]

/-- A throwaway block for concrete retargeting chains: only the timestamp,
difficulty and index fields matter to `calculateNewDifficulty`. -/
def mkDemoBlock (ts : Int) (idx : Nat) (d : Nat) : Block :=
  ⟨ts, [], "p", 0, d, idx, "h"⟩

/-- An 11-block chain: the first block sits far in the past, block 1 and
the head are 100 ms apart.  The source's window (`chain[length - 10]`,
block 1) sees a fast stretch and increments; the claim's window
(`chain[head.index - 10]`, block 0) would see a slow stretch and
decrement. -/
def demoChain3 : List Block :=
  [mkDemoBlock 0 0 4, mkDemoBlock 1000000 1 4, mkDemoBlock 1000010 2 4,
   mkDemoBlock 1000020 3 4, mkDemoBlock 1000030 4 4, mkDemoBlock 1000040 5 4,
   mkDemoBlock 1000050 6 4, mkDemoBlock 1000060 7 4, mkDemoBlock 1000070 8 4,
   mkDemoBlock 1000080 9 4, mkDemoBlock 1000100 10 4]

/-- C3 counterexample: on `demoChain3` the source retargets against
`chain[length - 10]` and returns 5 (increment), while the claim's formula
`time_taken = head.timestamp - chain[head.index - 10].timestamp` yields
`1000100 > time_expected * 4` and demands `max 1 (4 - 1) = 3`; the claim is
false at this chain. -/
theorem C3_counterexample :
    calculateNewDifficulty demoChain3 = 5 ∧
    claimNewDifficulty demoChain3 = 3 ∧
    calculateNewDifficulty demoChain3 ≠ claimNewDifficulty demoChain3 ∧
    DIFFICULTY_ADJUSTMENT_INTERVAL ≤ demoChain3.length := by
  refine ⟨by decide, by decide, by decide, by decide⟩

/-- C3 amended: chains shorter than the interval return `chain[0]`'s
difficulty; for chains of length at least 10, with
`time_taken = head.timestamp - chain[length - 10].timestamp` (the block 9
positions before the head, NOT `head.index - 10` positions from the start)
and `time_expected = BLOCK_TIME * 10 = 6000`, the result increments the
head difficulty when `time_taken < 1500`, decrements it (never below 1)
when `time_taken > 24000`, and returns it unchanged otherwise. -/
theorem C3_amended (chain : List Block) :
    (chain.length < DIFFICULTY_ADJUSTMENT_INTERVAL →
      calculateNewDifficulty chain = (chain.headD default).powDifficulty) ∧
    (∀ head adj, DIFFICULTY_ADJUSTMENT_INTERVAL ≤ chain.length →
      chain.get? (chain.length - 1) = some head →
      chain.get? (chain.length - 10) = some adj →
      calculateNewDifficulty chain =
        (if head.timestamp - adj.timestamp < 1500 then head.powDifficulty + 1
         else if 24000 < head.timestamp - adj.timestamp then max 1 (head.powDifficulty - 1)
         else head.powDifficulty)) := by
  constructor
  · intro h
    unfold calculateNewDifficulty
    rw [if_pos h]
  · intro head adj hlen hhead hadj
    unfold calculateNewDifficulty getLatestBlock
    rw [if_neg (by omega)]
    simp only
    rw [getLastD_eq_get?, hhead]
    unfold DIFFICULTY_ADJUSTMENT_INTERVAL
    rw [hadj]
    simp only [Option.getD_some]
    norm_num [BLOCK_TIME, DIFFICULTY_ADJUSTMENT_FACTOR]

/-- C3 witness: the amended characterization applied to the concrete
11-block chain reproduces the source's increment to 5. -/
theorem C3_witness : calculateNewDifficulty demoChain3 = 5 := by
  have h := (C3_amended demoChain3).2 (mkDemoBlock 1000100 10 4) (mkDemoBlock 1000000 1 4)
    (by decide) (by decide) (by decide)
  rw [h]
  decide

/-! ## C2: addMinedBlock can throw outside the claimed conditions, after
mutating the ledger

The validation gauntlet matches the claim's eight conditions, but the UTXO
update runs AFTER the block has been pushed and the pending set cleared: a
block whose (otherwise valid-looking) transaction references an existing
transaction with an out-of-range `outputIndex` makes
`updateUTXOSet` dereference `.address` of `undefined` — a TypeError thrown
with the chain already extended, pending already cleared, and no snapshot
written. -/

/-- The genesis coin transaction of the `replaceChain`-bearing file's
`createGenesisBlock` (its random nonce pinned to 0 for concreteness). -/
def gtx2 : Transaction := ⟨[], [⟨"genesis", 1000000⟩], 1609459200000, 0⟩

/-- The genesis block; the stored SHA-256 hex hash is opaque to every
operation exercised here, so an arbitrary stand-in string is used. -/
def gblock2 : Block := ⟨1609459200000, [gtx2], "0", 0, 4, 0, "gh"⟩

/-- A concrete transaction-hash assignment for the C2 scenario. -/
def hash2 : Transaction → String := fun tx => if tx.nonce = 0 then "hg" else "hbad"

/-- The freshly constructed ledger: genesis chain, its UTXO applied. -/
def st2 : ChainState :=
  ⟨[gblock2], [("genesis", [⟨"hg", 0, ⟨"genesis", 1000000⟩⟩])], [], [], 0, [gblock2]⟩

/-- A transaction whose single input resolves to the genesis transaction
but asks for output index 5, which does not exist (the genesis transaction
has one output). -/
def badTx2 : Transaction := ⟨[⟨"hg", 5, "sig"⟩], [⟨"a", 1⟩], 0, 1⟩

/-- A block that passes every validation check of `addMinedBlock`. -/
def badBlock2 : Block := ⟨1609459200000 + 600000, [badTx2], "gh", 0, 4, 1, "0000x"⟩

/-- C2: the claim's eight throw conditions all FAIL on `badBlock2`, yet
`addMinedBlock` throws (the TypeError of the unguarded
`outputs[input.outputIndex].address` read in `updateUTXOSet`) — and it does
so AFTER pushing the block and clearing pending, leaving the chain changed
and the snapshot unwritten, contradicting both the exactly-these-errors
clause and the unchanged-on-throw clause. -/
theorem C2_typeError_after_push :
    (addMinedBlock hash2 1700000000000 st2 badBlock2).1 = some "TypeError" ∧
    badBlock2.hasValidTransactions = true ∧
    ¬ (badBlock2.timestamp - (getLatestBlock st2.chain).timestamp < BLOCK_TIME * 1000) ∧
    badBlock2.previousHash = (getLatestBlock st2.chain).hash ∧
    badBlock2.index = st2.chain.length ∧
    badBlock2.isProofOfWork = true ∧
    st2.chain.length < POW_CUTOFF_BLOCK ∧
    badBlock2.powDifficulty = calculateNewDifficulty st2.chain ∧
    badBlock2.isValid = true ∧
    badBlock2.isProofOfStake = false ∧
    (addMinedBlock hash2 1700000000000 st2 badBlock2).2.chain = st2.chain ++ [badBlock2] ∧
    (addMinedBlock hash2 1700000000000 st2 badBlock2).2.pendingTransactions = [] ∧
    (addMinedBlock hash2 1700000000000 st2 badBlock2).2.saved = st2.saved := by
  refine ⟨by decide, by decide, by decide, by decide, by decide, by decide, by decide,
    by decide, by decide, by decide, by decide, by decide, by decide⟩

/-! ## C4: a double spend breaks the balance identity

`addMinedBlock` never checks that an input's referenced output is unspent
(or even exists), so a second block spending the same output is accepted.
`getTotalBalance` subtracts the amount at every resolvable spend while the
UTXO index only removes an entry it still holds, so the two diverge on the
reachable state below. -/

/-- The genesis block of `src/blockchain/Blockchain.ts` (whose
`createGenesisBlock` carries NO transactions); opaque hash pinned. -/
def gblock4 : Block := ⟨1609459200000, [], "0", 0, 4, 0, "gh"⟩

/-- The freshly constructed ledger for the C4 scenario. -/
def st4 : ChainState := ⟨[gblock4], [], [], [], 0, [gblock4]⟩

/-- A coinbase paying 100 to the miner address `m`. -/
def coin4 : Transaction := ⟨[], [⟨"m", 100⟩], 1, 1⟩

/-- First spend of the coinbase output. -/
def t4a : Transaction := ⟨[⟨"hc", 0, "s1"⟩], [⟨"a", 100⟩], 2, 2⟩

/-- Second spend of the SAME coinbase output. -/
def t4b : Transaction := ⟨[⟨"hc", 0, "s2"⟩], [⟨"b", 100⟩], 3, 3⟩

/-- A concrete transaction-hash assignment for the C4 scenario. -/
def hash4 : Transaction → String := fun tx =>
  if tx.nonce = 1 then "hc" else if tx.nonce = 2 then "ha" else "hb"

/-- Block 1: the coinbase. -/
def b4a : Block := ⟨1609459200000 + 600000, [coin4], "gh", 0, 4, 1, "0000a"⟩

/-- Block 2: first spend. -/
def b4b : Block := ⟨1609459200000 + 1200000, [t4a], "0000a", 0, 4, 2, "0000b"⟩

/-- Block 3: the double spend of the same output. -/
def b4c : Block := ⟨1609459200000 + 1800000, [t4b], "0000b", 0, 4, 3, "0000c"⟩

/-- The ledger after each successful append. -/
def st4a : ChainState := (addMinedBlock hash4 0 st4 b4a).2

/-- The ledger after the second append. -/
def st4b : ChainState := (addMinedBlock hash4 0 st4a b4b).2

/-- The ledger after the double-spending third append. -/
def st4c : ChainState := (addMinedBlock hash4 0 st4b b4c).2

/-- C4: all three appends succeed — the third one a double spend — and on
the resulting reachable state the UTXO-index sum for address `m`
(`getBalance`) is 0 while the historical replay (`getTotalBalance`)
returns -100: the claimed identity between the UTXO-index sum and the
replay fails on a reachable ledger state. -/
theorem C4_double_spend_breaks_balance :
    (addMinedBlock hash4 0 st4 b4a).1 = none ∧
    (addMinedBlock hash4 0 st4a b4b).1 = none ∧
    (addMinedBlock hash4 0 st4b b4c).1 = none ∧
    getBalance st4c "m" = 0 ∧
    getTotalBalance hash4 st4c "m" = some (-100) ∧
    getBalance st4c "m" =
      ((mapGet st4c.utxoSet "m").getD []).foldl (fun sum u => sum + u.output.amount) 0 := by
  refine ⟨by decide, by decide, by decide, by decide, by decide, by decide⟩

/-! ## C1: replaceChain accepts chains without genesis, index or timestamp
checks -/

/-- A ledger holding only the genesis block of the `replaceChain`-bearing
file. -/
def st1 : ChainState :=
  ⟨[gblock2], [("genesis", [⟨"hg", 0, ⟨"genesis", 1000000⟩⟩])], [], [], 0, [gblock2]⟩

/-- An arbitrary first block, nothing like the fixed genesis (its
`previousHash` is not "0", its index is 7). -/
def blkA1 : Block := ⟨0, [], "x", 0, 0, 7, "ah"⟩

/-- A second block correctly linked to `blkA1` but with index 3 (not 1) and
the same timestamp as its parent; its difficulty 0 makes the stored-hash
zero-run check vacuous. -/
def blkB1 : Block := ⟨0, [], "ah", 0, 0, 3, "bh"⟩

/-- The incoming two-block chain for the C1 counterexample. -/
def newChain1 : List Block := [blkA1, blkB1]

/-- C1 counterexample: `replaceChain` ACCEPTS `newChain1` — strictly longer
than the current chain, parent links intact — although its first block is
not the fixed genesis block, its second block's `index` is not 1, and the
consecutive timestamps differ by 0 < BLOCK_TIME * 1000; the claim's
only-if direction is false at this input. -/
theorem C1_counterexample :
    (replaceChain hash2 0 st1 newChain1).1 = none ∧
    (replaceChain hash2 0 st1 newChain1).2.chain = newChain1 ∧
    blkA1 ≠ gblock2 ∧
    blkA1.previousHash ≠ "0" ∧
    blkB1.index ≠ 1 ∧
    blkB1.timestamp - blkA1.timestamp < BLOCK_TIME * 1000 := by
  refine ⟨by decide, by decide, by decide, by decide, by decide, by decide⟩

/-- Every input of `txs` that resolves to a transaction of `chain` has an
in-range output index — the condition under which the filter-version UTXO
replay raises no TypeError. -/
def resolvesInRange (H : Transaction → String) (chain : List Block)
    (txs : List Transaction) : Prop :=
  ∀ tx ∈ txs, ∀ inp ∈ tx.inputs, ∀ prev,
    findTransaction H chain inp.previousTx = some prev →
      inp.outputIndex < prev.outputs.length

/-- Helper: a single in-range (or unresolvable) spend never errors. -/
theorem spendInputF_fst_eq_none (H : Transaction → String) (chain : List Block)
    (u : UtxoMap) (inp : TxInput)
    (h : ∀ prev, findTransaction H chain inp.previousTx = some prev →
      inp.outputIndex < prev.outputs.length) :
    (spendInputF H chain u inp).1 = none := by
  unfold spendInputF
  cases hf : findTransaction H chain inp.previousTx with
  | none => rfl
  | some prev =>
    have hlt := h prev hf
    dsimp only
    cases hg : prev.outputs.get? inp.outputIndex with
    | none =>
      rw [List.get?_eq_none] at hg
      omega
    | some o =>
      dsimp only
      by_cases ha : o.address = ""
      · rw [if_pos ha]
      · rw [if_neg ha]

/-- Helper: spending a whole input list in order never errors when every
input is in range. -/
theorem spendInputsF_fst_eq_none (H : Transaction → String) (chain : List Block) :
    ∀ (inputs : List TxInput) (u : UtxoMap),
      (∀ inp ∈ inputs, ∀ prev, findTransaction H chain inp.previousTx = some prev →
        inp.outputIndex < prev.outputs.length) →
      (spendInputsF H chain u inputs).1 = none := by
  intro inputs
  induction inputs with
  | nil => intro u _; rfl
  | cons inp rest ih =>
    intro u h
    unfold spendInputsF
    have h1 := spendInputF_fst_eq_none H chain u inp
      (h inp (List.mem_cons_self inp rest))
    cases hsp : spendInputF H chain u inp with
    | mk fst snd =>
      rw [hsp] at h1
      simp only at h1
      subst h1
      exact ih snd (fun i hi => h i (List.mem_cons_of_mem inp hi))

/-- Helper: applying one in-range transaction never errors. -/
theorem applyTxUtxoF_fst_eq_none (H : Transaction → String) (chain : List Block)
    (u : UtxoMap) (tx : Transaction)
    (h : ∀ inp ∈ tx.inputs, ∀ prev, findTransaction H chain inp.previousTx = some prev →
      inp.outputIndex < prev.outputs.length) :
    (applyTxUtxoF H chain u tx).1 = none := by
  unfold applyTxUtxoF
  have h1 := spendInputsF_fst_eq_none H chain tx.inputs u h
  cases hsp : spendInputsF H chain u tx.inputs with
  | mk fst snd =>
    rw [hsp] at h1
    simp only at h1
    subst h1
    rfl

/-- Helper: applying an in-range transaction list never errors. -/
theorem updateUTXOSetF_fst_eq_none (H : Transaction → String) (chain : List Block) :
    ∀ (txs : List Transaction) (u : UtxoMap), resolvesInRange H chain txs →
      (updateUTXOSetF H chain u txs).1 = none := by
  intro txs
  induction txs with
  | nil => intro u _; rfl
  | cons tx rest ih =>
    intro u h
    unfold updateUTXOSetF
    have h1 := applyTxUtxoF_fst_eq_none H chain u tx
      (h tx (List.mem_cons_self tx rest))
    cases hap : applyTxUtxoF H chain u tx with
    | mk fst snd =>
      rw [hap] at h1
      simp only at h1
      subst h1
      exact ih snd (fun t ht => h t (List.mem_cons_of_mem tx ht))

/-- Helper: the full rebuild never errors when every block's transactions
are in range against the new chain. -/
theorem rebuildFrom_fst_eq_none (H : Transaction → String) (chain : List Block) :
    ∀ (blocks : List Block) (u : UtxoMap),
      (∀ b ∈ blocks, resolvesInRange H chain b.transactions) →
      (rebuildFrom H chain u blocks).1 = none := by
  intro blocks
  induction blocks with
  | nil => intro u _; rfl
  | cons b rest ih =>
    intro u h
    unfold rebuildFrom
    have h1 := updateUTXOSetF_fst_eq_none H chain b.transactions u
      (h b (List.mem_cons_self b rest))
    cases hup : updateUTXOSetF H chain u b.transactions with
    | mk fst snd =>
      rw [hup] at h1
      simp only at h1
      subst h1
      exact ih snd (fun x hx => h x (List.mem_cons_of_mem b hx))

/-- The per-position acceptance conditions `replaceChain` actually
enforces, phrased over chain positions: parent link, transaction validity,
stored-hash target and cutoff for PoW blocks, and stake validation against
the pre-replacement ledger for PoS blocks at or past the cutoff. -/
def linkConditions (H : Transaction → String) (now : Int) (st : ChainState)
    (newChain : List Block) : Prop :=
  ∀ i b pb, 1 ≤ i → newChain.get? i = some b → newChain.get? (i - 1) = some pb →
    (b.previousHash = pb.hash ∧ b.hasValidTransactions = true ∧
     (b.isProofOfWork = true → b.isValid = true ∧ i < POW_CUTOFF_BLOCK) ∧
     (b.isProofOfStake = true → POW_CUTOFF_BLOCK ≤ i →
       validateStakeG H now st.chain st.utxoSet
         ((b.transactions.get? 1).getD default) = true))

/-- Helper: `checkChainBlock` passes exactly when the conditions of
`linkConditions` hold at that position. -/
theorem checkChainBlock_none_iff (H : Transaction → String) (now : Int)
    (st : ChainState) (i : Nat) (pb b : Block) :
    checkChainBlock H now st i pb b = none ↔
      (b.previousHash = pb.hash ∧ b.hasValidTransactions = true ∧
       (b.isProofOfWork = true → b.isValid = true ∧ i < POW_CUTOFF_BLOCK) ∧
       (b.isProofOfStake = true → POW_CUTOFF_BLOCK ≤ i →
         validateStakeG H now st.chain st.utxoSet
           ((b.transactions.get? 1).getD default) = true)) := by
  have hwk : b.isProofOfWork = !b.isProofOfStake := rfl
  unfold checkChainBlock
  by_cases h1 : b.previousHash = pb.hash
  case neg =>
    rw [if_pos h1]
    simp [h1]
  rw [if_neg (by simp [h1])]
  by_cases h2 : b.hasValidTransactions = true
  case neg =>
    rw [if_pos h2]
    simp [h2]
  rw [if_neg (by simp [h2])]
  by_cases h3 : b.isProofOfWork = true
  · rw [if_pos h3]
    have hps : b.isProofOfStake = false := by
      rw [h3] at hwk
      simpa using hwk.symm
    by_cases h4 : b.isValid = true
    case neg =>
      rw [if_pos h4]
      simp [h1, h2, h3, h4]
    rw [if_neg (by simp [h4])]
    by_cases h5 : POW_CUTOFF_BLOCK ≤ i
    · rw [if_pos h5]
      constructor
      · intro hfls
        exact absurd hfls (by simp)
      · intro ⟨_, _, hpow, _⟩
        have := (hpow h3).2
        omega
    · rw [if_neg h5]
      constructor
      · intro _
        exact ⟨h1, h2, fun _ => ⟨h4, by omega⟩, fun hb _ => by rw [hps] at hb; cases hb⟩
      · intro _
        rfl
  · rw [if_neg h3]
    have hps : b.isProofOfStake = true := by
      cases hval : b.isProofOfStake with
      | true => rfl
      | false =>
        rw [hval] at hwk
        exact absurd hwk h3
    by_cases h6 : POW_CUTOFF_BLOCK ≤ i
    · rw [if_pos ⟨hps, h6⟩]
      by_cases h7 : validateStakeG H now st.chain st.utxoSet
          ((b.transactions.get? 1).getD default) = true
      case neg =>
        rw [if_pos h7]
        constructor
        · intro hfls
          exact absurd hfls (by simp)
        · intro ⟨_, _, _, hstk⟩
          exact absurd (hstk hps h6) h7
      rw [if_neg (not_not_intro h7)]
      constructor
      · intro _
        exact ⟨h1, h2, fun hw => absurd hw h3, fun _ _ => h7⟩
      · intro _
        rfl
    · rw [if_neg (fun hand => h6 hand.2)]
      constructor
      · intro _
        exact ⟨h1, h2, fun hw => absurd hw h3, fun _ hcut => absurd hcut h6⟩
      · intro _
        rfl

/-- Helper: the validation loop of `replaceChain` passes exactly when every
predecessor-successor pair from the starting index on passes
`checkChainBlock`. -/
theorem checkChainFrom_none_iff (H : Transaction → String) (now : Int) (st : ChainState) :
    ∀ (l : List Block) (i0 : Nat) (p : Block),
      checkChainFrom H now st i0 p l = none ↔
        ∀ k b pb, l.get? k = some b → (p :: l).get? k = some pb →
          checkChainBlock H now st (i0 + k) pb b = none := by
  intro l
  induction l with
  | nil =>
    intro i0 p
    constructor
    · intro _ k b pb hb _
      simp at hb
    · intro _
      rfl
  | cons hd tl ih =>
    intro i0 p
    unfold checkChainFrom
    cases hcb : checkChainBlock H now st i0 p hd with
    | some e =>
      constructor
      · intro h
        exact absurd h (by simp)
      · intro h
        have h0 := h 0 hd p (by simp) (by simp)
        rw [Nat.add_zero] at h0
        rw [h0] at hcb
        exact absurd hcb (by simp)
    | none =>
      dsimp only
      rw [ih (i0 + 1) hd]
      constructor
      · intro h k b pb hb hpb
        cases k with
        | zero =>
          simp at hb hpb
          subst hb
          subst hpb
          rw [Nat.add_zero]
          exact hcb
        | succ k' =>
          have := h k' b pb (by simpa using hb) (by simpa using hpb)
          rw [show i0 + (k' + 1) = i0 + 1 + k' by omega]
          exact this
      · intro h k b pb hb hpb
        have := h (k + 1) b pb (by simpa using hb) (by simpa using hpb)
        rw [show i0 + 1 + k = i0 + (k + 1) by omega]
        exact this

/-- C1 amended: provided no input of the incoming chain references an
in-chain transaction with an out-of-range output index (the condition under
which the UTXO rebuild raises no TypeError), `replaceChain(new_chain)`
succeeds IF AND ONLY IF `new_chain` is strictly longer than the current
chain and every block at position `i ≥ 1` is linked to its predecessor by
hash, has valid transactions, and — when PoW — meets its stored-hash
difficulty target and sits before the cutoff, and — when PoS at or past
the cutoff — passes stake validation against the pre-replacement ledger.
Genesis equivalence, per-block `index` fields and timestamp spacing are
NOT required.  On every validation failure the ledger is unchanged. -/
theorem C1_replaceChain_amended (H : Transaction → String) (now : Int)
    (st : ChainState) (newChain : List Block)
    (hres : ∀ b ∈ newChain, resolvesInRange H newChain b.transactions) :
    ((replaceChain H now st newChain).1 = none ↔
      (st.chain.length < newChain.length ∧ linkConditions H now st newChain)) ∧
    (∀ e, (replaceChain H now st newChain).1 = some e →
      (replaceChain H now st newChain).2 = st) := by
  unfold replaceChain
  by_cases hlen : newChain.length ≤ st.chain.length
  · rw [if_pos hlen]
    constructor
    · constructor
      · intro h
        exact absurd h (by simp)
      · intro ⟨h1, _⟩
        omega
    · intro e _
      rfl
  · rw [if_neg hlen]
    cases hc : newChain with
    | nil =>
      subst hc
      simp at hlen
    | cons g rest =>
      dsimp only
      cases hchk : checkChainFrom H now st 1 g rest with
      | some e =>
        simp only [hchk]
        constructor
        · constructor
          · intro h
            exact absurd h (by simp)
          · intro ⟨_, hlink⟩
            have hiff := (checkChainFrom_none_iff H now st rest 1 g).mpr ?_
            · rw [hiff] at hchk
              exact absurd hchk (by simp)
            · intro k b pb hb hpb
              have := hlink (1 + k) b pb (by omega)
                (by simpa [Nat.add_comm 1 k] using hb)
                (by simpa [Nat.add_sub_cancel_left] using hpb)
              exact (checkChainBlock_none_iff H now st (1 + k) pb b).mpr this
        · intro e' _
          trivial
      | none =>
        simp only [hchk]
        have hreb := rebuildFrom_fst_eq_none H (g :: rest) (g :: rest) []
          (by rw [hc] at hres; exact hres)
        cases hrb : rebuildFrom H (g :: rest) [] (g :: rest) with
        | mk fst snd =>
          rw [hrb] at hreb
          simp only at hreb
          subst hreb
          simp only [hrb]
          constructor
          · constructor
            · intro _
              refine ⟨by rw [← hc]; omega, ?_⟩
              intro i b pb hi hb hpb
              have hb' : rest.get? (i - 1) = some b := by
                cases i with
                | zero => omega
                | succ j => simpa using hb
              have hk := (checkChainFrom_none_iff H now st rest 1 g).mp hchk
                (i - 1) b pb hb' hpb
              have heq : 1 + (i - 1) = i := by omega
              rw [heq] at hk
              exact (checkChainBlock_none_iff H now st i pb b).mp hk
            · intro _
              trivial
          · intro e he
            exact absurd he (by simp)

/-- C1 witness: on an empty current chain, a one-block incoming chain with
no transactions satisfies the hypotheses and the acceptance conditions, so
`replaceChain` succeeds. -/
theorem C1_witness :
    (replaceChain hash2 0 ⟨[], [], [], [], 0, []⟩ [blkA1]).1 = none := by
  apply (C1_replaceChain_amended hash2 0 ⟨[], [], [], [], 0, []⟩ [blkA1] ?_).1.mpr
  · refine ⟨by decide, ?_⟩
    intro i b pb hi hb _
    cases i with
    | zero => omega
    | succ j => simp at hb
  · intro b hb tx htx
    have : b = blkA1 := by simpa using hb
    subst this
    simp [blkA1] at htx

end BlockchainTs
